import Mathlib

/-!
Verification development for the VIRA agent MCP server (src/server.py).

The orchestration core is embedded shallowly:
* the capability registry (`context.config.mcp.servers`) is an association
  list from provider name to its startup-argument list;
* the per-workflow registry mutations, agent constructions and parameter
  extractions are translated directly from `src/server.py`;
* the parts of the orchestration that live in the `mcp_agent` framework
  rather than under src (the Model Selector, the ParallelLLM aggregation,
  the workflow runner lookup and the scoped-acquisition construct) are
  modelled from the spec; each such definition says so in its doc comment.

Prompt and instruction texts are abbreviated: per the spec (section 1) the
content of instructions/prompts is out of scope for the core.
-/

namespace Vira

/-! ## Capability registry -/

/-- The capability registry `context.config.mcp.servers`: ordered mapping
from provider name to its list of startup arguments. -/
abbrev MCPServers := List (String × List String)

/-- Membership test, as in `"filesystem" in context.config.mcp.servers`. -/
def hasServer (s : MCPServers) (name : String) : Bool :=
  match s with
  | [] => false
  | (n, _) :: rest => if n = name then true else hasServer rest name

/-- Arguments of a named provider, `none` when the provider is absent. -/
def getArgs (s : MCPServers) (name : String) : Option (List String) :=
  match s with
  | [] => none
  | (n, a) :: rest => if n = name then some a else getArgs rest name

/-- `servers[name].args.extend(extra)`: append `extra` to the named
provider's startup arguments, leaving every other provider untouched. -/
def extendArgs (s : MCPServers) (name : String) (extra : List String) : MCPServers :=
  match s with
  | [] => []
  | (n, a) :: rest =>
    (if n = name then (n, a ++ extra) else (n, a)) :: extendArgs rest name extra

/-- Registry mutation performed by `PlanningWorkflow.run`
(src/server.py lines 56-58): when the `filesystem` provider is present,
append the current working directory to its startup arguments. -/
def planningRegistryEffect (cwd : String) (s : MCPServers) : MCPServers :=
  if hasServer s "filesystem" then extendArgs s "filesystem" [cwd] else s

/-- Registry mutation performed by `ResearchWorkflow.run`
(src/server.py lines 128-129): the run only reads the registry to compute
`available_servers`; it performs no mutation. -/
def researchRegistryEffect (s : MCPServers) : MCPServers :=
  s

/-- Registry mutation performed by `CodeDevelopmentWorkflow.run`
(src/server.py lines 204-206): same guarded append as the planning workflow. -/
def codeDevRegistryEffect (cwd : String) (s : MCPServers) : MCPServers :=
  if hasServer s "filesystem" then extendArgs s "filesystem" [cwd] else s

/-- Registry mutation performed by `VIRAOrchestrationWorkflow.run`
(src/server.py lines 292-298): the guarded append for `filesystem`; the
`fetch` branch only appends to the local `available_servers` list. -/
def viraRegistryEffect (cwd : String) (s : MCPServers) : MCPServers :=
  if hasServer s "filesystem" then extendArgs s "filesystem" [cwd] else s

/-- Registry mutation performed by `ClaudeCodeIntegrationWorkflow.run`
(src/server.py lines 381-382): same guarded append. -/
def claudeCodeRegistryEffect (cwd : String) (s : MCPServers) : MCPServers :=
  if hasServer s "filesystem" then extendArgs s "filesystem" [cwd] else s

/-! ## Agents -/

/-- An `mcp_agent` Agent as constructed by the workflows: a name, an
instruction text, and the capability names it is scoped to. -/
structure Agent where
  name : String
  instruction : String
  server_names : List String
deriving DecidableEq, Repr

/-- The planning agent (src/server.py lines 60-74). -/
def planning_agent (s : MCPServers) : Agent :=
  { name := "planning_agent"
    instruction := "Planning Agent: break down complex tasks into manageable, sequential steps."
    server_names := if hasServer s "filesystem" then ["filesystem"] else [] }

/-- The research agent (src/server.py lines 128-145): `available_servers`
is `["fetch"]` when the fetch provider is present, else `[]`. -/
def research_agent (s : MCPServers) : Agent :=
  { name := "research_agent"
    instruction := "Research Agent: expert investigator and analyst."
    server_names := if hasServer s "fetch" then ["fetch"] else [] }

/-- The architect agent (src/server.py lines 209-215). -/
def architect_agent (s : MCPServers) : Agent :=
  { name := "architect"
    instruction := "Software Architect: design system architecture and technical specifications."
    server_names := if hasServer s "filesystem" then ["filesystem"] else [] }

/-- The developer agent (src/server.py lines 217-223). -/
def developer_agent (s : MCPServers) : Agent :=
  { name := "developer"
    instruction := "Senior Developer: write clean, efficient, well-documented code."
    server_names := if hasServer s "filesystem" then ["filesystem"] else [] }

/-- The tester agent (src/server.py lines 225-231). -/
def tester_agent (s : MCPServers) : Agent :=
  { name := "tester"
    instruction := "QA Engineer: create comprehensive test suites and ensure code quality."
    server_names := if hasServer s "filesystem" then ["filesystem"] else [] }

/-- The reviewer agent (src/server.py lines 233-238): constructed without
`server_names`, which defaults to the empty scope. -/
def reviewer_agent : Agent :=
  { name := "reviewer"
    instruction := "Code Reviewer: analyze code for quality, security, performance and maintainability."
    server_names := [] }

/-- The orchestrator agent (src/server.py lines 292-315): scoped to
`filesystem` and `fetch` exactly when each is present, in that order. -/
def vira_orchestrator_agent (s : MCPServers) : Agent :=
  { name := "vira_orchestrator"
    instruction := "Master Orchestrator: coordinate all specialized agents to execute complex projects."
    server_names :=
      (if hasServer s "filesystem" then ["filesystem"] else []) ++
      (if hasServer s "fetch" then ["fetch"] else []) }

/-- The Claude Code integration agent (src/server.py lines 384-398). -/
def claude_code_agent (s : MCPServers) : Agent :=
  { name := "claude_code_specialist"
    instruction := "Claude Code Integration Specialist: repository analysis and workflow automation."
    server_names := if hasServer s "filesystem" then ["filesystem"] else [] }

/-- Spec-side scoping operation (spec section 4.2): an Agent is bound to the
intersection of the requested capability names and those currently available
in the registry, kept in request order. -/
def scopeTo (s : MCPServers) (requested : List String) : List String :=
  requested.filter (fun n => hasServer s n)

/-! ## Results and the executor boundary -/

/-- Failure taxonomy of the spec (section 7). -/
inductive FailureKind where
  | UnknownWorkflow
  | CapabilityUnavailable
  | AlreadyAttached
  | BackendFailure
  | AggregationFailed
  | NoCandidates
deriving DecidableEq, Repr

/-- The uniform success/failure envelope returned by every invocation. -/
inductive WorkflowResult (α : Type) where
  | success (value : α)
  | failure (kind : FailureKind) (message : String)
deriving DecidableEq, Repr

/-- Modelled from the spec: the Single-Agent Executor / invocation boundary
(sections 4.4, 4.6 and 7) lives in the `mcp_agent` framework, not under src.
Per the spec, any failure during connection, attachment or generation is
caught at this boundary and converted to a failure WorkflowResult carrying
the originating kind; a successful handler result is wrapped as success. -/
def executeHandler (r : Except FailureKind String) : WorkflowResult String :=
  match r with
  | .ok v => .success v
  | .error k => .failure k "workflow step failed"

/-- Abbreviated prompt built by `PlanningWorkflow.run` (src lines 82-93). -/
def planningPrompt (task_description : String) : String :=
  "Analyze this task and create a detailed execution plan: " ++ task_description

/-- The body of `PlanningWorkflow.run` inside the async-with block
(src/server.py lines 76-104), parameterized by the three fallible
collaborator operations: establish the capability connections of the
planning agent, attach the model binding, issue one generation call. -/
def planningBody (connect : List String → Except FailureKind Unit)
    (attach : Agent → Except FailureKind Unit)
    (gen : String → Except FailureKind String)
    (s : MCPServers) (task_description : String) : Except FailureKind String := do
  let a := planning_agent s
  connect a.server_names
  attach a
  gen (planningPrompt task_description)

/-- Abbreviated prompt built by `ClaudeCodeIntegrationWorkflow.run`
(src lines 405-420). -/
def claudeCodePrompt (operation target prompt : String) : String :=
  "Execute Claude Code integration for repository operations: " ++
    operation ++ " on " ++ target ++ " with " ++ prompt

/-! ## Dictionary-typed workflow inputs -/

/-- A Python `Dict[str, str]` input, as an association list. -/
abbrev StrDict := List (String × String)

/-- `d.get(k, dflt)`: the value at `k` when present, else the default. -/
def dictGet (d : StrDict) (k dflt : String) : String :=
  match d with
  | [] => dflt
  | (k2, v) :: rest => if k2 = k then v else dictGet rest k dflt

/-- Parameter extraction of `CodeDevelopmentWorkflow.run`
(src/server.py lines 198-200). -/
def codeDevParams (dev_request : StrDict) : String × String × String :=
  (dictGet dev_request "task" "Code development task",
   dictGet dev_request "language" "python",
   dictGet dev_request "requirements" "Standard best practices")

/-- Parameter extraction of `VIRAOrchestrationWorkflow.run`
(src/server.py lines 286-288). -/
def viraParams (project_request : StrDict) : String × String × String :=
  (dictGet project_request "description" "Complex project",
   dictGet project_request "type" "general",
   dictGet project_request "priority" "medium")

/-- Parameter extraction of `ClaudeCodeIntegrationWorkflow.run`
(src/server.py lines 374-376). -/
def claudeCodeParams (code_request : StrDict) : String × String × String :=
  (dictGet code_request "operation" "analyze",
   dictGet code_request "target" ".",
   dictGet code_request "prompt" "Analyze and improve this code")

/-- The body of `ClaudeCodeIntegrationWorkflow.run` inside the async-with
block (src/server.py lines 400-431), parameterized as `planningBody`. -/
def claudeCodeBody (connect : List String → Except FailureKind Unit)
    (attach : Agent → Except FailureKind Unit)
    (gen : String → Except FailureKind String)
    (s : MCPServers) (code_request : StrDict) : Except FailureKind String := do
  let ps := claudeCodeParams code_request
  let a := claude_code_agent s
  connect a.server_names
  attach a
  gen (claudeCodePrompt ps.1 ps.2.1 ps.2.2)

/-! ## Parallel fan-out / fan-in -/

/-- A fan-out set together with its designated fan-in agent
(spec section 3, ParallelTaskSet). -/
structure ParallelTaskSet where
  fanOut : List Agent
  fanIn : Agent
deriving Repr

/-- The `ParallelLLM` constructed by `CodeDevelopmentWorkflow.run`
(src/server.py lines 241-246): fan-out agents architect, developer, tester;
fan-in agent reviewer. -/
def parallel_dev (s : MCPServers) : ParallelTaskSet :=
  { fanOut := [architect_agent s, developer_agent s, tester_agent s]
    fanIn := reviewer_agent }

/-- Modelled from the spec (section 4.5): every fan-out run is started on
the same task framing and its result is tagged with the originating agent
identity; `genOut` gives the outcome of the single-agent run of the named
agent. -/
def fanOutResults (genOut : String → Except FailureKind String)
    (agents : List Agent) : List (String × Except FailureKind String) :=
  agents.map (fun a => (a.name, genOut a.name))

/-- The successful fan-out outputs, each tagged with its agent identity;
failed runs contribute nothing. -/
def successTexts : List (String × Except FailureKind String) → List (String × String)
  | [] => []
  | (n, .ok v) :: rest => (n, v) :: successTexts rest
  | (_, .error _) :: rest => successTexts rest

/-- Modelled from the spec (section 4.5, step 3): the composite prompt is
the concatenation of the successful outputs, each tagged with its
originating agent identity. -/
def compositePrompt (ss : List (String × String)) : String :=
  String.join (ss.map (fun p => p.1 ++ ": " ++ p.2 ++ "\n"))

/-- Modelled from the spec: `ParallelLLM.generate_str` lives in the
`mcp_agent` framework, not under src. Per the spec (section 4.5):
best-effort aggregation; fail with AggregationFailed only when all fan-out
runs fail, otherwise run the fan-in agent on the composite prompt and
return its result unchanged. The boolean records whether the fan-in agent
was invoked. -/
def parallelGenerate (genOut : String → Except FailureKind String)
    (genIn : String → Except FailureKind String)
    (ts : ParallelTaskSet) : Except FailureKind String × Bool :=
  let ss := successTexts (fanOutResults genOut ts.fanOut)
  if ss.isEmpty then (.error .AggregationFailed, false)
  else (genIn (compositePrompt ss), true)

/-! ## Model selector -/

/-- The three preference weights (spec section 3). -/
structure ModelPreferences where
  intelligencePriority : ℚ
  costPriority : ℚ
  speedPriority : ℚ
deriving DecidableEq, Repr

/-- A candidate model variant with its three normalized scores. -/
structure ModelVariant where
  capability : ℚ
  cost : ℚ
  latency : ℚ
deriving DecidableEq, Repr

/-- Modelled from the spec (section 4.3): the weighted score; cost and
latency are penalties. -/
def weightedScore (p : ModelPreferences) (v : ModelVariant) : ℚ :=
  p.intelligencePriority * v.capability -
    p.costPriority * v.cost - p.speedPriority * v.latency

/-- Fold step of the selector: the running best is replaced only by a
candidate with strictly greater weighted score, so on ties the
first-declared candidate wins. -/
def selectFrom (p : ModelPreferences) (best : ModelVariant) :
    List ModelVariant → ModelVariant
  | [] => best
  | x :: xs =>
    if weightedScore p best < weightedScore p x then selectFrom p x xs
    else selectFrom p best xs

/-- Modelled from the spec: the Model Selector lives in the `mcp_agent`
framework, not under src. Per the spec (section 4.3): pick the candidate
with the maximum weighted score, ties broken by declaration order
(first-declared wins); `none` on the empty candidate list (NoCandidates). -/
def select (p : ModelPreferences) : List ModelVariant → Option ModelVariant
  | [] => none
  | c :: cs => some (selectFrom p c cs)

/-- `r` is the first candidate of `l` attaining the maximum weighted score:
everything declared before it scores strictly less, everything after it
scores no more. -/
def FirstMax (p : ModelPreferences) (l : List ModelVariant) (r : ModelVariant) : Prop :=
  ∃ l1 l2, l = l1 ++ r :: l2 ∧
    (∀ u ∈ l1, weightedScore p u < weightedScore p r) ∧
    (∀ u ∈ l2, weightedScore p u ≤ weightedScore p r)

/-! ## Scoped acquisition -/

/-- Observable connection events of one agent scope. -/
inductive ConnEvent where
  | acquire
  | release
  | attachModel
  | generate
deriving DecidableEq, Repr

/-- Outcome of the body of an async-with block. -/
inductive BodyOutcome where
  | ok (v : String)
  | err (k : FailureKind)
  | cancelled
deriving DecidableEq, Repr

/-- Modelled from the spec (sections 4.2 and 5): the `async with agent:`
scoped acquisition establishes the capability connections on entry and
releases them on every exit path — normal return, failure or cancellation
of the body — with no manual close call. -/
def withConnection (body : List ConnEvent × BodyOutcome) :
    List ConnEvent × BodyOutcome :=
  (ConnEvent.acquire :: body.1 ++ [ConnEvent.release], body.2)

/-- Trace of the body run inside the async-with block of
`PlanningWorkflow.run` and `VIRAOrchestrationWorkflow.run`
(src/server.py lines 76-104 and 317-352): attach the model binding, then
issue one generation call whose outcome is the given one. -/
def generationBody (outcome : BodyOutcome) : List ConnEvent × BodyOutcome :=
  ([ConnEvent.attachModel, ConnEvent.generate], outcome)

/-! ## Workflow registration and invocation -/

/-- The workflow ids registered by the five `@app.workflow` classes of
src/server.py, as listed by `main` (src lines 450-459). -/
def registeredWorkflowNames : List String :=
  ["PlanningWorkflow", "ResearchWorkflow", "CodeDevelopmentWorkflow",
   "VIRAOrchestrationWorkflow", "ClaudeCodeIntegrationWorkflow"]

/-- Handler lookup in the registration table. -/
def lookupHandler {H : Type} (table : List (String × H)) (name : String) : Option H :=
  match table with
  | [] => none
  | (n, h) :: rest => if n = name then some h else lookupHandler rest name

/-- Modelled from the spec (section 4.6): the Workflow Runner lives in the
`mcp_agent` framework, not under src. `invoke` looks up the handler in the
registration table, fails with UnknownWorkflow when the name is absent, and
otherwise returns the handler's WorkflowResult. -/
def invoke {I : Type} (table : List (String × (I → WorkflowResult String)))
    (name : String) (input : I) : WorkflowResult String :=
  match lookupHandler table name with
  | none => .failure .UnknownWorkflow ("Unknown workflow: " ++ name)
  | some h => h input

/-- The registration table of src/server.py: the five workflow ids bound to
their handlers. -/
def viraTable {I : Type} (h1 h2 h3 h4 h5 : I → WorkflowResult String) :
    List (String × (I → WorkflowResult String)) :=
  [("PlanningWorkflow", h1), ("ResearchWorkflow", h2),
   ("CodeDevelopmentWorkflow", h3), ("VIRAOrchestrationWorkflow", h4),
   ("ClaudeCodeIntegrationWorkflow", h5)]

/-! ## Registry lemmas -/

theorem getArgs_nil (k : String) : getArgs [] k = none := rfl

theorem getArgs_cons (n : String) (a : List String) (rest : MCPServers) (k : String) :
    getArgs ((n, a) :: rest) k = if n = k then some a else getArgs rest k := rfl

theorem hasServer_cons (n : String) (a : List String) (rest : MCPServers) (k : String) :
    hasServer ((n, a) :: rest) k = if n = k then true else hasServer rest k := rfl

theorem extendArgs_cons (n : String) (a : List String) (rest : MCPServers)
    (name : String) (extra : List String) :
    extendArgs ((n, a) :: rest) name extra =
      (if n = name then (n, a ++ extra) else (n, a)) :: extendArgs rest name extra := rfl

theorem getArgs_extendArgs_self (s : MCPServers) (name : String) (extra a : List String)
    (h : getArgs s name = some a) :
    getArgs (extendArgs s name extra) name = some (a ++ extra) := by
  induction s with
  | nil => simp [getArgs_nil] at h
  | cons p rest ih =>
    obtain ⟨n, args⟩ := p
    rw [extendArgs_cons]
    by_cases hn : n = name
    · rw [getArgs_cons, if_pos hn] at h
      obtain rfl : args = a := Option.some.inj h
      rw [if_pos hn, getArgs_cons, if_pos hn]
    · rw [getArgs_cons, if_neg hn] at h
      rw [if_neg hn, getArgs_cons, if_neg hn]
      exact ih h

theorem getArgs_extendArgs_ne (s : MCPServers) (name n : String) (extra : List String)
    (h : n ≠ name) :
    getArgs (extendArgs s name extra) n = getArgs s n := by
  induction s with
  | nil => rfl
  | cons p rest ih =>
    obtain ⟨m, args⟩ := p
    rw [extendArgs_cons]
    by_cases hm : m = name
    · have hmn : m ≠ n := fun e => h (e ▸ hm)
      rw [if_pos hm, getArgs_cons, getArgs_cons, if_neg hmn, if_neg hmn]
      exact ih
    · rw [if_neg hm, getArgs_cons, getArgs_cons]
      by_cases hmn : m = n
      · rw [if_pos hmn, if_pos hmn]
      · rw [if_neg hmn, if_neg hmn]
        exact ih

theorem hasServer_extendArgs (s : MCPServers) (name n : String) (extra : List String) :
    hasServer (extendArgs s name extra) n = hasServer s n := by
  induction s with
  | nil => rfl
  | cons p rest ih =>
    obtain ⟨m, args⟩ := p
    rw [extendArgs_cons]
    by_cases hm : m = name
    · rw [if_pos hm, hasServer_cons, hasServer_cons, ih]
    · rw [if_neg hm, hasServer_cons, hasServer_cons, ih]

theorem hasServer_eq_isSome_getArgs (s : MCPServers) (n : String) :
    hasServer s n = (getArgs s n).isSome := by
  induction s with
  | nil => rfl
  | cons p rest ih =>
    obtain ⟨m, args⟩ := p
    rw [hasServer_cons, getArgs_cons]
    by_cases hm : m = n
    · rw [if_pos hm, if_pos hm]
      rfl
    · rw [if_neg hm, if_neg hm]
      exact ih

theorem planningRegistryEffect_args (cwd : String) (s : MCPServers) (a : List String)
    (h : getArgs s "filesystem" = some a) :
    getArgs (planningRegistryEffect cwd s) "filesystem" = some (a ++ [cwd]) := by
  have hs : hasServer s "filesystem" = true := by
    rw [hasServer_eq_isSome_getArgs, h]; rfl
  rw [planningRegistryEffect, if_pos hs]
  exact getArgs_extendArgs_self s "filesystem" [cwd] a h

theorem planningRegistryEffect_iterate (cwd : String) (s : MCPServers) (a : List String)
    (h : getArgs s "filesystem" = some a) :
    ∀ n, getArgs ((planningRegistryEffect cwd)^[n] s) "filesystem" =
      some (a ++ List.replicate n cwd) := by
  intro n
  induction n generalizing s a with
  | zero => simpa using h
  | succ n ih =>
    rw [Function.iterate_succ_apply]
    have h1 := planningRegistryEffect_args cwd s a h
    have h2 := ih (planningRegistryEffect cwd s) (a ++ [cwd]) h1
    rw [h2, List.append_assoc, List.singleton_append, ← List.replicate_succ]

/-! ## Claim theorems -/

/-- C1, counterexample: starting from a registry in which the `filesystem`
provider is present with no arguments, performing the source's
append-working-directory mutation twice (one per workflow invocation, with
working directory `/tmp/x`) leaves two occurrences of `/tmp/x` in the
provider's argument list, not one: the append is not idempotent. -/
theorem c1_counterexample :
    ((getArgs (planningRegistryEffect "/tmp/x"
        (planningRegistryEffect "/tmp/x" [("filesystem", [])])) "filesystem").getD
          []).count "/tmp/x" = 2 ∧
    ¬ ((getArgs (planningRegistryEffect "/tmp/x"
        (planningRegistryEffect "/tmp/x" [("filesystem", [])])) "filesystem").getD
          []).count "/tmp/x" = 1 := by
  constructor <;> decide

/-- C1, amended: each workflow invocation appends the working directory to
the `filesystem` provider's argument list once per call, so `n` invocations
leave `n` occurrences (two calls leave two); when the provider is absent the
mutation is a no-op. The append is once per invocation, not once per
process lifetime. -/
theorem c1_amended (cwd : String) (s : MCPServers) :
    (∀ a, getArgs s "filesystem" = some a →
      getArgs (planningRegistryEffect cwd s) "filesystem" = some (a ++ [cwd]) ∧
      ∀ n, getArgs ((planningRegistryEffect cwd)^[n] s) "filesystem" =
        some (a ++ List.replicate n cwd)) ∧
    (hasServer s "filesystem" = false →
      planningRegistryEffect cwd s = s ∧ codeDevRegistryEffect cwd s = s) ∧
    codeDevRegistryEffect cwd s = planningRegistryEffect cwd s := by
  refine ⟨fun a h => ⟨planningRegistryEffect_args cwd s a h,
    planningRegistryEffect_iterate cwd s a h⟩, fun h => ?_, rfl⟩
  constructor <;> simp [planningRegistryEffect, codeDevRegistryEffect, h]

theorem c1_amended_witness :
    getArgs ((planningRegistryEffect "/tmp/x")^[2] [("filesystem", [])]) "filesystem" =
      some ["/tmp/x", "/tmp/x"] :=
  ((c1_amended "/tmp/x" [("filesystem", [])]).1 [] (by decide)).2 2

/-- C10: for every workflow, the only registry mutation is appending the
working directory to the `filesystem` provider's arguments when that
provider is present; every other provider's arguments and every provider's
availability are unchanged, the mutation is a no-op when `filesystem` is
absent, the research workflow mutates nothing, and the other three
dictionary workflows perform exactly the planning workflow's mutation. -/
theorem c10_registry_frame (cwd : String) (s : MCPServers) :
    (∀ n, n ≠ "filesystem" → getArgs (planningRegistryEffect cwd s) n = getArgs s n) ∧
    (∀ n, hasServer (planningRegistryEffect cwd s) n = hasServer s n) ∧
    (∀ a, getArgs s "filesystem" = some a →
      getArgs (planningRegistryEffect cwd s) "filesystem" = some (a ++ [cwd])) ∧
    (hasServer s "filesystem" = false → planningRegistryEffect cwd s = s) ∧
    researchRegistryEffect s = s ∧
    codeDevRegistryEffect cwd s = planningRegistryEffect cwd s ∧
    viraRegistryEffect cwd s = planningRegistryEffect cwd s ∧
    claudeCodeRegistryEffect cwd s = planningRegistryEffect cwd s := by
  refine ⟨fun n hn => ?_, fun n => ?_, fun a h => planningRegistryEffect_args cwd s a h,
    fun h => by simp [planningRegistryEffect, h], rfl, rfl, rfl, rfl⟩
  · by_cases hs : hasServer s "filesystem" = true
    · rw [planningRegistryEffect, if_pos hs]
      exact getArgs_extendArgs_ne s "filesystem" n [cwd] hn
    · rw [planningRegistryEffect, if_neg hs]
  · by_cases hs : hasServer s "filesystem" = true
    · rw [planningRegistryEffect, if_pos hs]
      exact hasServer_extendArgs s "filesystem" n [cwd]
    · rw [planningRegistryEffect, if_neg hs]

theorem c10_registry_frame_witness :
    getArgs (planningRegistryEffect "/x" [("filesystem", []), ("fetch", ["a"])]) "fetch" =
      getArgs [("filesystem", []), ("fetch", ["a"])] "fetch" :=
  (c10_registry_frame "/x" [("filesystem", []), ("fetch", ["a"])]).1 "fetch" (by decide)

/-- C3: every agent constructed by the workflows is scoped to exactly the
intersection (in request order) of its requested capability names and the
names present in the registry, and hence its scope only ever contains
available providers; when a requested capability is absent the scope is
silently narrowed rather than failing. -/
theorem c3_agent_scope (s : MCPServers) :
    (planning_agent s).server_names = scopeTo s ["filesystem"] ∧
    (research_agent s).server_names = scopeTo s ["fetch"] ∧
    (architect_agent s).server_names = scopeTo s ["filesystem"] ∧
    (claude_code_agent s).server_names = scopeTo s ["filesystem"] ∧
    (vira_orchestrator_agent s).server_names = scopeTo s ["filesystem", "fetch"] ∧
    (∀ n ∈ (planning_agent s).server_names, hasServer s n = true) ∧
    (∀ n ∈ (research_agent s).server_names, hasServer s n = true) ∧
    (∀ n ∈ (vira_orchestrator_agent s).server_names, hasServer s n = true) := by
  cases hfs : hasServer s "filesystem" <;> cases hfe : hasServer s "fetch" <;>
    simp_all [planning_agent, research_agent, architect_agent, claude_code_agent,
      vira_orchestrator_agent, scopeTo, List.filter]

/-- C5: the `ParallelLLM` constructed by `CodeDevelopmentWorkflow.run` has a
non-empty fan-out sequence (architect, developer, tester) and its fan-in
agent (the reviewer) is distinct from every fan-out agent. -/
theorem c5_taskset_invariant (s : MCPServers) :
    (parallel_dev s).fanOut ≠ [] ∧
    ∀ a ∈ (parallel_dev s).fanOut, a ≠ (parallel_dev s).fanIn := by
  refine ⟨by simp [parallel_dev], fun a ha => ?_⟩
  simp only [parallel_dev, List.mem_cons, List.not_mem_nil, or_false] at ha
  rcases ha with rfl | rfl | rfl <;>
    simp [architect_agent, developer_agent, tester_agent, reviewer_agent,
      parallel_dev, Agent.mk.injEq]

theorem c3_agent_scope_witness :
    hasServer [("filesystem", ([] : List String))] "filesystem" = true :=
  (c3_agent_scope [("filesystem", [])]).2.2.2.2.2.1 "filesystem" (by decide)

theorem c5_taskset_invariant_witness :
    architect_agent [] ≠ (parallel_dev []).fanIn :=
  (c5_taskset_invariant []).2 (architect_agent []) (by decide)

theorem dictGet_of_absent (d : StrDict) (k dflt : String)
    (h : ∀ p ∈ d, p.1 ≠ k) : dictGet d k dflt = dflt := by
  induction d with
  | nil => rfl
  | cons p rest ih =>
    obtain ⟨k2, v⟩ := p
    have hk : k2 ≠ k := h (k2, v) (List.mem_cons_self _ _)
    simp only [dictGet, if_neg hk]
    exact ih fun q hq => h q (List.mem_cons_of_mem _ hq)

/-- C9: the dictionary-typed workflows never fail on a missing key: each
absent key is replaced by its documented default, and on the empty
dictionary every parameter takes its default. -/
theorem c9_dict_defaults (d : StrDict) :
    ((∀ p ∈ d, p.1 ≠ "task") → (codeDevParams d).1 = "Code development task") ∧
    ((∀ p ∈ d, p.1 ≠ "language") → (codeDevParams d).2.1 = "python") ∧
    ((∀ p ∈ d, p.1 ≠ "requirements") → (codeDevParams d).2.2 = "Standard best practices") ∧
    ((∀ p ∈ d, p.1 ≠ "description") → (viraParams d).1 = "Complex project") ∧
    ((∀ p ∈ d, p.1 ≠ "type") → (viraParams d).2.1 = "general") ∧
    ((∀ p ∈ d, p.1 ≠ "priority") → (viraParams d).2.2 = "medium") ∧
    ((∀ p ∈ d, p.1 ≠ "operation") → (claudeCodeParams d).1 = "analyze") ∧
    ((∀ p ∈ d, p.1 ≠ "target") → (claudeCodeParams d).2.1 = ".") ∧
    ((∀ p ∈ d, p.1 ≠ "prompt") → (claudeCodeParams d).2.2 = "Analyze and improve this code") ∧
    codeDevParams [] = ("Code development task", "python", "Standard best practices") ∧
    viraParams [] = ("Complex project", "general", "medium") ∧
    claudeCodeParams [] = ("analyze", ".", "Analyze and improve this code") :=
  ⟨fun h => dictGet_of_absent d _ _ h, fun h => dictGet_of_absent d _ _ h,
   fun h => dictGet_of_absent d _ _ h, fun h => dictGet_of_absent d _ _ h,
   fun h => dictGet_of_absent d _ _ h, fun h => dictGet_of_absent d _ _ h,
   fun h => dictGet_of_absent d _ _ h, fun h => dictGet_of_absent d _ _ h,
   fun h => dictGet_of_absent d _ _ h, rfl, rfl, rfl⟩

theorem c9_dict_defaults_witness :
    (codeDevParams [("other", "x")]).1 = "Code development task" :=
  (c9_dict_defaults [("other", "x")]).1 (by decide)

/-- C2: for the single-agent workflows, running the body against any
behavior of the three fallible collaborator operations and wrapping it at
the executor boundary always yields a WorkflowResult tagged success or
failure; a successful body is wrapped as success, a failing body is
converted to a failure carrying the originating kind (in particular a
generation failure after successful connection and attachment), and no
outcome escapes the boundary. -/
theorem c2_executor_boundary (connect : List String → Except FailureKind Unit)
    (attach : Agent → Except FailureKind Unit)
    (gen : String → Except FailureKind String)
    (s : MCPServers) (task : String) (req : StrDict) :
    ((∃ v, executeHandler (planningBody connect attach gen s task) =
        WorkflowResult.success v) ∨
      (∃ k m, executeHandler (planningBody connect attach gen s task) =
        WorkflowResult.failure k m)) ∧
    (∀ v, planningBody connect attach gen s task = Except.ok v →
      executeHandler (planningBody connect attach gen s task) =
        WorkflowResult.success v) ∧
    (∀ k, planningBody connect attach gen s task = Except.error k →
      executeHandler (planningBody connect attach gen s task) =
        WorkflowResult.failure k "workflow step failed") ∧
    (∀ k, connect (planning_agent s).server_names = Except.ok () →
      attach (planning_agent s) = Except.ok () →
      gen (planningPrompt task) = Except.error k →
      executeHandler (planningBody connect attach gen s task) =
        WorkflowResult.failure k "workflow step failed") ∧
    ((∃ v, executeHandler (claudeCodeBody connect attach gen s req) =
        WorkflowResult.success v) ∨
      (∃ k m, executeHandler (claudeCodeBody connect attach gen s req) =
        WorkflowResult.failure k m)) ∧
    (∀ k, claudeCodeBody connect attach gen s req = Except.error k →
      executeHandler (claudeCodeBody connect attach gen s req) =
        WorkflowResult.failure k "workflow step failed") := by
  refine ⟨?_, ?_, ?_, ?_, ?_, ?_⟩
  · cases h : planningBody connect attach gen s task with
    | ok v => exact Or.inl ⟨v, rfl⟩
    | error k => exact Or.inr ⟨k, "workflow step failed", rfl⟩
  · intro v h
    rw [h]
    rfl
  · intro k h
    rw [h]
    rfl
  · intro k hc ha hg
    have hb : planningBody connect attach gen s task = Except.error k := by
      simp only [planningBody]
      rw [hc, ha, hg]
      rfl
    rw [hb]
    rfl
  · cases h : claudeCodeBody connect attach gen s req with
    | ok v => exact Or.inl ⟨v, rfl⟩
    | error k => exact Or.inr ⟨k, "workflow step failed", rfl⟩
  · intro k h
    rw [h]
    rfl

theorem c2_executor_boundary_witness :
    executeHandler (planningBody (fun _ => Except.ok ()) (fun _ => Except.ok ())
        (fun _ => Except.error FailureKind.BackendFailure) [] "t") =
      WorkflowResult.failure FailureKind.BackendFailure "workflow step failed" :=
  (c2_executor_boundary (fun _ => Except.ok ()) (fun _ => Except.ok ())
      (fun _ => Except.error FailureKind.BackendFailure) [] "t" []).2.2.2.1
    FailureKind.BackendFailure rfl rfl rfl

theorem successTexts_eq_nil (genOut : String → Except FailureKind String)
    (agents : List Agent)
    (h : ∀ a ∈ agents, ∃ k, genOut a.name = Except.error k) :
    successTexts (fanOutResults genOut agents) = [] := by
  induction agents with
  | nil => rfl
  | cons a rest ih =>
    obtain ⟨k, hk⟩ := h a (List.mem_cons_self _ _)
    simp only [fanOutResults, List.map_cons, hk, successTexts]
    exact ih fun b hb => h b (List.mem_cons_of_mem _ hb)

theorem successTexts_ne_nil (genOut : String → Except FailureKind String) :
    ∀ (agents : List Agent) (a : Agent), a ∈ agents →
      ∀ v, genOut a.name = Except.ok v →
        successTexts (fanOutResults genOut agents) ≠ [] := by
  intro agents
  induction agents with
  | nil =>
    intro a ha
    cases ha
  | cons b rest ih =>
    intro a ha v hv
    rcases List.mem_cons.mp ha with rfl | hb
    · simp [fanOutResults, hv, successTexts]
    · cases hgb : genOut b.name with
      | ok w => simp [fanOutResults, hgb, successTexts]
      | error k =>
        simp only [fanOutResults, List.map_cons, hgb, successTexts]
        exact ih a hb v hv

/-- C4: in the parallel aggregator, when at least one fan-out run succeeds
the fan-in agent is invoked on the composite prompt built from exactly the
successful fan-out outputs tagged with their originating agent identity
(failed runs contribute nothing and do not abort the aggregation) and the
aggregation returns whatever the fan-in run returns; when all fan-out runs
fail the aggregation fails with AggregationFailed and the fan-in agent is
never invoked. -/
theorem c4_parallel_aggregation (genOut genIn : String → Except FailureKind String)
    (ts : ParallelTaskSet) :
    ((∃ a ∈ ts.fanOut, ∃ v, genOut a.name = Except.ok v) →
      parallelGenerate genOut genIn ts =
        (genIn (compositePrompt (successTexts (fanOutResults genOut ts.fanOut))), true)) ∧
    ((∀ a ∈ ts.fanOut, ∃ k, genOut a.name = Except.error k) →
      parallelGenerate genOut genIn ts = (Except.error FailureKind.AggregationFailed, false)) := by
  constructor
  · rintro ⟨a, ha, v, hv⟩
    have hne := successTexts_ne_nil genOut ts.fanOut a ha v hv
    simp only [parallelGenerate]
    cases hss : successTexts (fanOutResults genOut ts.fanOut) with
    | nil => exact absurd hss hne
    | cons x xs => simp [List.isEmpty]
  · intro h
    have hnil := successTexts_eq_nil genOut ts.fanOut h
    simp only [parallelGenerate]
    rw [hnil]
    simp [List.isEmpty]

theorem c4_parallel_aggregation_witness :
    parallelGenerate (fun _ => Except.error FailureKind.BackendFailure)
        (fun _ => Except.ok "review") (parallel_dev []) =
      (Except.error FailureKind.AggregationFailed, false) :=
  (c4_parallel_aggregation (fun _ => Except.error FailureKind.BackendFailure)
      (fun _ => Except.ok "review") (parallel_dev [])).2
    (fun _ _ => ⟨FailureKind.BackendFailure, rfl⟩)

theorem selectFrom_firstMax (p : ModelPreferences) :
    ∀ (xs : List ModelVariant) (best : ModelVariant),
      FirstMax p (best :: xs) (selectFrom p best xs) := by
  intro xs
  induction xs with
  | nil =>
    intro best
    exact ⟨[], [], rfl, by simp, by simp⟩
  | cons x xs ih =>
    intro best
    simp only [selectFrom]
    by_cases hlt : weightedScore p best < weightedScore p x
    · rw [if_pos hlt]
      obtain ⟨l1, l2, heq, hlt1, hle2⟩ := ih x
      cases l1 with
      | nil =>
        rw [List.nil_append] at heq
        injection heq with h1 h2
        refine ⟨[best], l2, ?_, ?_, hle2⟩
        · rw [List.cons_append, List.nil_append, ← h1, ← h2]
        · intro u hu
          rcases List.mem_cons.mp hu with rfl | hu2
          · rw [← h1]
            exact hlt
          · cases hu2
      | cons y t =>
        rw [List.cons_append] at heq
        injection heq with h1 h2
        subst h1
        have hxr : weightedScore p x < weightedScore p (selectFrom p x xs) :=
          hlt1 x (List.mem_cons_self _ _)
        refine ⟨best :: x :: t, l2, ?_, ?_, hle2⟩
        · rw [List.cons_append, List.cons_append, ← h2]
        · intro u hu
          rcases List.mem_cons.mp hu with rfl | hu2
          · exact lt_trans hlt hxr
          rcases List.mem_cons.mp hu2 with rfl | hu3
          · exact hxr
          · exact hlt1 u (List.mem_cons_of_mem _ hu3)
    · rw [if_neg hlt]
      obtain ⟨l1, l2, heq, hlt1, hle2⟩ := ih best
      cases l1 with
      | nil =>
        rw [List.nil_append] at heq
        injection heq with h1 h2
        refine ⟨[], x :: l2, ?_, by simp, ?_⟩
        · rw [List.nil_append, ← h1, ← h2]
        · intro u hu
          rcases List.mem_cons.mp hu with rfl | hu2
          · rw [← h1]
            exact le_of_not_lt hlt
          · exact hle2 u hu2
      | cons y t =>
        rw [List.cons_append] at heq
        injection heq with h1 h2
        subst h1
        have hbr : weightedScore p best < weightedScore p (selectFrom p best xs) :=
          hlt1 best (List.mem_cons_self _ _)
        refine ⟨best :: x :: t, l2, ?_, ?_, hle2⟩
        · rw [List.cons_append, List.cons_append, ← h2]
        · intro u hu
          rcases List.mem_cons.mp hu with rfl | hu2
          · exact hbr
          rcases List.mem_cons.mp hu2 with rfl | hu3
          · exact lt_of_le_of_lt (le_of_not_lt hlt) hbr
          · exact hlt1 u (List.mem_cons_of_mem _ hu3)

/-- C6: on every non-empty candidate list the Model Selector returns the
first-declared candidate attaining the maximum weighted score
(intelligence times capability minus cost and speed penalties), so ties go
to the first-declared candidate; it is a pure function, hence repeated
calls with identical inputs agree; the empty list selects nothing; and with
preferences (1, 0, 0) over capabilities 1/2 and 9/10 the second candidate
is selected. -/
theorem c6_model_selector (p : ModelPreferences) (c : ModelVariant)
    (cs : List ModelVariant) :
    (∃ r, select p (c :: cs) = some r ∧ FirstMax p (c :: cs) r) ∧
    select p (c :: cs) = select p (c :: cs) ∧
    select p [] = none ∧
    select ⟨1, 0, 0⟩ [⟨1/2, 0, 0⟩, ⟨9/10, 0, 0⟩] =
      some ⟨9/10, 0, 0⟩ := by
  refine ⟨⟨selectFrom p c cs, rfl, selectFrom_firstMax p cs c⟩, rfl, rfl, ?_⟩
  norm_num [select, selectFrom, weightedScore]

theorem c6_model_selector_witness :
    select ⟨1, 0, 0⟩ [⟨1/2, 0, 0⟩, ⟨9/10, 0, 0⟩] = some ⟨9/10, 0, 0⟩ :=
  (c6_model_selector ⟨1, 0, 0⟩ ⟨1/2, 0, 0⟩ [⟨9/10, 0, 0⟩]).2.2.2

/-- C7: the scoped-acquisition construct releases the capability
connections exactly once on every exit path of the body — normal return,
failure or cancellation — while acquiring exactly once more than the body
does and preserving the body's outcome; in particular the attach-generate
body of the planning and orchestration workflows releases exactly once for
every generation outcome. -/
theorem c7_scoped_release (body : List ConnEvent × BodyOutcome)
    (h : body.1.count ConnEvent.release = 0) :
    (withConnection body).1.count ConnEvent.release = 1 ∧
    (withConnection body).1.count ConnEvent.acquire =
      body.1.count ConnEvent.acquire + 1 ∧
    (withConnection body).2 = body.2 ∧
    ∀ outcome,
      (withConnection (generationBody outcome)).1.count ConnEvent.release = 1 ∧
      (withConnection (generationBody outcome)).2 = outcome := by
  refine ⟨?_, ?_, rfl, fun outcome => ⟨?_, rfl⟩⟩
  · simp [withConnection, List.count_cons, List.count_append, h]
  · simp [withConnection, List.count_cons, List.count_append]
  · simp [withConnection, generationBody, List.count_cons, List.count_append]

theorem c7_scoped_release_witness :
    (withConnection (generationBody (BodyOutcome.err FailureKind.BackendFailure))).1.count
        ConnEvent.release = 1 :=
  (c7_scoped_release (generationBody (BodyOutcome.err FailureKind.BackendFailure))
    (by decide)).1

/-- C8: invoking any workflow name absent from the registration table of
the five registered workflows returns failure(UnknownWorkflow), whatever
the input and the handlers; it neither succeeds nor raises. -/
theorem c8_unknown_workflow {I : Type} (h1 h2 h3 h4 h5 : I → WorkflowResult String)
    (name : String) (hn : name ∉ registeredWorkflowNames) (input : I) :
    invoke (viraTable h1 h2 h3 h4 h5) name input =
      WorkflowResult.failure FailureKind.UnknownWorkflow ("Unknown workflow: " ++ name) := by
  simp only [registeredWorkflowNames, List.mem_cons, List.not_mem_nil, or_false,
    not_or] at hn
  obtain ⟨n1, n2, n3, n4, n5⟩ := hn
  simp [invoke, viraTable, lookupHandler, Ne.symm n1, Ne.symm n2, Ne.symm n3,
    Ne.symm n4, Ne.symm n5]

theorem c8_unknown_workflow_witness :
    invoke (viraTable (fun _ : StrDict => WorkflowResult.success "")
        (fun _ => WorkflowResult.success "") (fun _ => WorkflowResult.success "")
        (fun _ => WorkflowResult.success "") (fun _ => WorkflowResult.success ""))
      "nonexistent" [] =
      WorkflowResult.failure FailureKind.UnknownWorkflow
        ("Unknown workflow: " ++ "nonexistent") :=
  c8_unknown_workflow (fun _ : StrDict => WorkflowResult.success "")
    (fun _ => WorkflowResult.success "") (fun _ => WorkflowResult.success "")
    (fun _ => WorkflowResult.success "") (fun _ => WorkflowResult.success "")
    "nonexistent" (by decide) []

end Vira
